import Mathlib

set_option maxRecDepth 20000

/-
Verification of the rule-based government-job-notification extractor
(`parseJobNotification` and its helper extractors from server/jobParser).
The JavaScript string and regular-expression semantics used by the source
are modelled explicitly: strings are lists of characters, and regular
expressions are interpreted by a fuelled backtracking matcher with the
same leftmost-match, greedy, ordered-alternation behaviour as the
JavaScript engine.
-/

namespace JobParser

abbrev Chars := List Char

/-- The character class matched by a backslash-s in a JavaScript regular
expression, which is also the set stripped by String.prototype.trim. -/
def jsSpace (c : Char) : Bool :=
  c = ' ' || c = '\t' || c = '\n' || c = '\r' ||
  c = Char.ofNat 11 || c = Char.ofNat 12 || c = Char.ofNat 0xA0 ||
  c = Char.ofNat 0x1680 || (0x2000 ≤ c.toNat && c.toNat ≤ 0x200A) ||
  c = Char.ofNat 0x2028 || c = Char.ofNat 0x2029 || c = Char.ofNat 0x202F ||
  c = Char.ofNat 0x205F || c = Char.ofNat 0x3000 || c = Char.ofNat 0xFEFF

/-- The character class matched by a backslash-w in a JavaScript regular
expression. -/
def jsWord (c : Char) : Bool := c.isAlpha || c.isDigit || c = '_'

def lowerChars (s : Chars) : Chars := s.map Char.toLower

/-- `leadsWith pat s` holds when `pat` occurs at the very start of `s`. -/
def leadsWith : Chars → Chars → Bool
  | [], _ => true
  | _ :: _, [] => false
  | p :: pt, c :: ct => p = c && leadsWith pt ct

/-- First index at which `pat` occurs in `s` (JavaScript String.indexOf). -/
def subIndex : Chars → Chars → Option Nat
  | [], pat => if leadsWith pat [] then some 0 else none
  | s@(_ :: t), pat => if leadsWith pat s then some 0 else (subIndex t pat).map (· + 1)

/-- JavaScript String.includes. -/
def containsSub (s pat : Chars) : Bool := (subIndex s pat).isSome

/-- JavaScript String.prototype.trim. -/
def trimChars (s : Chars) : Chars :=
  ((s.dropWhile jsSpace).reverse.dropWhile jsSpace).reverse

/-- JavaScript String.slice with non-negative indices. -/
def sliceCh (s : Chars) (a b : Nat) : Chars := (s.drop a).take (b - a)

/-- JavaScript String.split with separator a newline. -/
def splitNl : Chars → List Chars
  | [] => [[]]
  | c :: t =>
    if c = '\n' then [] :: splitNl t
    else
      match splitNl t with
      | [] => [[c]]
      | h :: r => (c :: h) :: r

/-- Collapse every maximal run of whitespace to a single space
(JavaScript replace of a backslash-s-plus global pattern with a space). -/
def collapseWsAux : Bool → Chars → Chars
  | _, [] => []
  | inRun, c :: t =>
    if jsSpace c then
      if inRun then collapseWsAux true t else ' ' :: collapseWsAux true t
    else c :: collapseWsAux false t

def collapseWs (s : Chars) : Chars := collapseWsAux false s

/-- Remove every asterisk, hash and underscore (the source replaces runs of
those characters by the empty string, which is the same as filtering). -/
def stripEmphasis (s : Chars) : Chars :=
  s.filter (fun c => !(c = '*' || c = '#' || c = '_'))

def stripCommas (s : Chars) : Chars := s.filter (fun c => c ≠ ',')

def digitsToNat (ds : Chars) : Nat :=
  ds.foldl (fun a c => a * 10 + (c.toNat - 48)) 0

def isHexDigitCh (c : Char) : Bool :=
  c.isDigit || ('a' ≤ c.toLower && c.toLower ≤ 'f')

def hexVal (c : Char) : Nat :=
  if c.isDigit then c.toNat - 48 else c.toLower.toNat - 87

/-- JavaScript parseInt with no explicit radix: skip leading whitespace, an
optional sign, detect a 0x prefix for hexadecimal, else parse leading
decimal digits; none models NaN. -/
def jsParseInt (s : Chars) : Option Int :=
  let s1 := s.dropWhile jsSpace
  let signed : Int × Chars :=
    match s1 with
    | '-' :: t => (-1, t)
    | '+' :: t => (1, t)
    | _ => (1, s1)
  let sign := signed.1
  let s2 := signed.2
  match s2 with
  | '0' :: x :: t =>
    if x = 'x' || x = 'X' then
      let hs := t.takeWhile isHexDigitCh
      if hs = [] then none
      else some (sign * (hs.foldl (fun a c => a * 16 + hexVal c) 0 : Nat))
    else
      let ds := s2.takeWhile Char.isDigit
      if ds = [] then none else some (sign * (digitsToNat ds : Nat))
  | _ =>
    let ds := s2.takeWhile Char.isDigit
    if ds = [] then none else some (sign * (digitsToNat ds : Nat))

/-- JavaScript truthiness-based or for strings (empty string is falsy). -/
def jsOrStr (a b : String) : String := if a = "" then b else a

/-- JavaScript `x || d` where `x` may be undefined (none) or a string. -/
def jsOrOpt (a : Option String) (b : String) : String :=
  match a with
  | some s => jsOrStr s b
  | none => b

/- ### A backtracking regular-expression matcher with JavaScript semantics -/

abbrev Caps := List (Nat × Chars)

/-- Most recently recorded value of capture group `n`. -/
def capLook : Caps → Nat → Option Chars
  | [], _ => none
  | (m, v) :: t, n => if m = n then some v else capLook t n

inductive RE : Type where
  | eps : RE
  | cls : (Char → Bool) → RE
  | seq : RE → RE → RE
  | alt : RE → RE → RE
  | star : RE → RE
  | grp : Nat → RE → RE

/-- Fuelled continuation-passing matcher.  Alternation prefers the left
branch, star is greedy, and both backtrack through the continuation,
exactly like the JavaScript engine.  The continuation receives the unread
input and the capture list. -/
def reM : Nat → RE → Chars → Caps → (Chars → Caps → Option (Caps × Chars)) →
    Option (Caps × Chars)
  | 0, _, _, _, _ => none
  | fuel + 1, r, s, c, k =>
    match r with
    | .eps => k s c
    | .cls p =>
      match s with
      | [] => none
      | ch :: rest => if p ch then k rest c else none
    | .seq a b => reM fuel a s c (fun s1 c1 => reM fuel b s1 c1 k)
    | .alt a b =>
      match reM fuel a s c k with
      | some v => some v
      | none => reM fuel b s c k
    | .star a =>
      match reM fuel a s c (fun s1 c1 =>
          if s1.length < s.length then reM fuel (.star a) s1 c1 k else none) with
      | some v => some v
      | none => k s c
    | .grp n a =>
      reM fuel a s c (fun s1 c1 => k s1 ((n, s.take (s.length - s1.length)) :: c1))

structure RMatch where
  index : Nat
  matched : Chars
  caps : Caps
deriving DecidableEq

/-- Attempt a match anchored at the start of `s`. -/
def reTry (fuel : Nat) (r : RE) (s : Chars) : Option (Caps × Nat) :=
  match reM fuel r s [] (fun rest c => some (c, rest)) with
  | some (c, rest) => some (c, s.length - rest.length)
  | none => none

/-- Leftmost match: try each start position from the left, as
JavaScript String.match does for an unanchored pattern. -/
def reSearchAux (fuel : Nat) (r : RE) : Chars → Nat → Option RMatch
  | s, i =>
    match reTry fuel r s with
    | some (c, len) => some ⟨i, s.take len, c⟩
    | none =>
      match s with
      | [] => none
      | _ :: t => reSearchAux fuel r t (i + 1)

def reFuel (s : Chars) : Nat := s.length + 600

def reSearch (r : RE) (s : Chars) : Option RMatch := reSearchAux (reFuel s) r s 0

/-- Match for a pattern anchored with a caret: only position 0 is tried. -/
def reAtStart (r : RE) (s : Chars) : Option RMatch :=
  match reTry (reFuel s) r s with
  | some (c, len) => some ⟨0, s.take len, c⟩
  | none => none

def cap (m : RMatch) (n : Nat) : Option Chars := capLook m.caps n

def capStr (m : RMatch) (n : Nat) : Option String := (cap m n).map fun l => ⟨l⟩

/- ### Pattern construction helpers -/

def rch (c : Char) : RE := .cls (fun x => x = c)

/-- Case-insensitive single character; the argument is given in lowercase. -/
def rchI (c : Char) : RE := .cls (fun x => x.toLower = c)

def rcat (l : List RE) : RE := l.foldr .seq .eps

def rstr (w : String) : RE := rcat (w.toList.map rch)

def rstrI (w : String) : RE := rcat (w.toList.map rchI)

def ropt (a : RE) : RE := .alt a .eps

def rplus (a : RE) : RE := .seq a (.star a)

def rmin (n : Nat) (a : RE) : RE := .seq (rcat (List.replicate n a)) (.star a)

def rfail : RE := .cls (fun _ => false)

def ralt (l : List RE) : RE := l.foldr .alt rfail

def rws : RE := .star (.cls jsSpace)

def rws1 : RE := rplus (.cls jsSpace)

def rdigit : RE := .cls Char.isDigit

def rd1 : RE := rplus rdigit

/-- An optional colon or hyphen. -/
def rcolonDash : RE := ropt (.cls (fun c => c = ':' || c = '-'))

/- ### extractSection -/

/-- The next-section marker of extractSection: a newline, optional
whitespace, an uppercase letter, at least five more uppercase letters or
whitespace characters, then a colon or newline (case sensitive). -/
def markerRE : RE :=
  rcat [rch '\n', rws, .cls Char.isUpper,
        rmin 5 (.cls (fun c => Char.isUpper c || jsSpace c)),
        .cls (fun c => c = ':' || c = '\n')]

def sectionLoop (tl lowerText : Chars) : List String → Chars
  | [] => []
  | header :: rest =>
    match subIndex lowerText (lowerChars header.toList) with
    | some idx =>
      let startIdx := idx + header.length
      let endIdx :=
        match reSearch markerRE (tl.drop startIdx) with
        | some m => startIdx + (if m.index = 0 then 500 else m.index)
        | none => startIdx + 1000
      trimChars (sliceCh tl startIdx (min endIdx (startIdx + 1500)))
    | none => sectionLoop tl lowerText rest

def extractSection (text : String) (headers : List String) : String :=
  ⟨sectionLoop text.toList (lowerChars text.toList) headers⟩

/- ### extractDates -/

structure DateEntry where
  label : String
  date : String
deriving DecidableEq

/-- First date-shaped alternative: digits, slashes and hyphens, optional
word, then a four-digit year. -/
def dateShapeA : RE :=
  rcat [rplus (.cls (fun c => c.isDigit || c = '/' || c = '-')), rws,
        .star (.cls jsWord), rws, rcat [rdigit, rdigit, rdigit, rdigit]]

/-- Second date-shaped alternative: one or two digits, a word and a
four-digit year separated by whitespace. -/
def dateShapeB : RE :=
  rcat [.alt (.seq rdigit rdigit) rdigit, rws1, rplus (.cls jsWord), rws1,
        rcat [rdigit, rdigit, rdigit, rdigit]]

def dateRE1 : RE :=
  rcat [rstrI "application", rws,
        ralt [rstrI "begin", rstrI "start", .seq (rstrI "start") (ropt (rchI 's'))],
        rws, rcolonDash, rws, .grp 1 (.alt dateShapeA dateShapeB)]

def dateRE2 : RE :=
  rcat [ralt [rstrI "last", rstrI "closing"], rws, rstrI "date", rws,
        ropt (rcat [rstrI "for", rws,
          ralt [rstrI "apply", rstrI "application", rstrI "online"]]),
        rws, rcolonDash, rws, .grp 1 (.alt dateShapeA dateShapeB)]

def dateRE3 : RE :=
  rcat [rstrI "late", rws, rstrI "fee", rws,
        ropt (ralt [rstrI "date", rcat [rstrI "last", rws, rstrI "date"]]),
        rws, rcolonDash, rws, .grp 1 (.alt dateShapeA dateShapeB)]

def dateRE4 : RE :=
  rcat [rstrI "exam", rws, rstrI "date", rws, rcolonDash, rws,
        .grp 1 (ralt [dateShapeA, dateShapeB,
          rcat [rstrI "notify", rws, rstrI "soon"],
          rcat [rstrI "will", rws, rstrI "be", rws, rstrI "notified"]])]

def dateRE5 : RE :=
  rcat [rstrI "admit", rws, rstrI "card", rws,
        ropt (ralt [rstrI "date", rstrI "available"]), rws, rcolonDash, rws,
        .grp 1 (ralt [dateShapeA, dateShapeB,
          rcat [rstrI "before", rws, rstrI "exam"],
          rcat [rstrI "notify", rws, rstrI "soon"]])]

def dateRE6 : RE :=
  rcat [rstrI "result", rws, ropt (ralt [rstrI "date", rstrI "declaration"]),
        rws, rcolonDash, rws,
        .grp 1 (ralt [dateShapeA,
          rcat [rstrI "notify", rws, rstrI "soon"],
          rcat [rstrI "will", rws, rstrI "be", rws, rstrI "updated"]])]

def dateRE7 : RE :=
  rcat [rstrI "fee", rws, rstrI "payment", rws,
        ropt (rcat [rstrI "last", rws, rstrI "date"]), rws, rcolonDash, rws,
        .grp 1 (.alt dateShapeA dateShapeB)]

def datePatterns : List (RE × String) :=
  [(dateRE1, "Application Start"), (dateRE2, "Last Date"),
   (dateRE3, "Late Fee Date"), (dateRE4, "Exam Date"),
   (dateRE5, "Admit Card"), (dateRE6, "Result Date"),
   (dateRE7, "Fee Payment Last Date")]

/-- The caret-anchored generic line pattern `label: date` (case
sensitive): a non-colon run, a colon, whitespace, then a date shape. -/
def colonLineRE : RE :=
  rcat [.grp 1 (rplus (.cls (fun c => c ≠ ':'))), rch ':', rws,
        .grp 2 (.alt dateShapeA dateShapeB)]

def extractDates (text : String) : List DateEntry :=
  let dateSection := extractSection text ["Important Dates", "IMPORTANT DATES", "Important Date"]
  let searchText := if dateSection = "" then text else dateSection
  let st := searchText.toList
  let fixed := datePatterns.foldl (fun (acc : List DateEntry) p =>
    match reSearch p.1 st with
    | some m =>
      match cap m 1 with
      | some g => if g.isEmpty then acc else acc ++ [⟨p.2, ⟨trimChars g⟩⟩]
      | none => acc
    | none => acc) []
  (splitNl st).foldl (fun acc line =>
    match reAtStart colonLineRE line with
    | some m =>
      match cap m 1, cap m 2 with
      | some g1, some g2 =>
        if acc.any (fun d => lowerChars d.label.toList = lowerChars (trimChars g1)) then acc
        else
          let label := trimChars g1
          if 3 < label.length ∧ label.length < 50 then acc ++ [⟨⟨label⟩, ⟨trimChars g2⟩⟩]
          else acc
      | _, _ => acc
    | none => acc) fixed

/- ### extractFees -/

structure FeeEntry where
  category : String
  fee : String
deriving DecidableEq

/-- Optional currency mark: a rupee sign, `rs` with optional dot, or `inr`. -/
def feeCUR : RE :=
  ropt (ralt [rch '₹', .seq (rstrI "rs") (ropt (rch '.')), rstrI "inr"])

/-- A run of digits and commas. -/
def feeAmt : RE := rplus (.cls (fun c => c.isDigit || c = ','))

/-- A fee amount, or the words nil or exempted. -/
def feeAmtNil : RE := ralt [feeAmt, rstrI "nil", rstrI "exempted"]

def feeRE1 : RE :=
  rcat [rstrI "general", rws, ropt (.seq (rch '/') rws),
        ropt (rcat [rstrI "ews", rws, ropt (.seq (rch '/') rws)]),
        ropt (rstrI "obc"), rws, rcolonDash, rws, feeCUR, rws, .grp 1 feeAmt]

def feeRE2 : RE :=
  rcat [rstrI "general", rws, rcolonDash, rws, feeCUR, rws, .grp 1 feeAmt]

def feeRE3 : RE :=
  rcat [rstrI "obc", rws, rcolonDash, rws, feeCUR, rws, .grp 1 feeAmt]

def feeRE4 : RE :=
  rcat [rstrI "ews", rws, rcolonDash, rws, feeCUR, rws, .grp 1 feeAmt]

def feeRE5 : RE :=
  rcat [rstrI "sc", rws, ropt (.seq (rch '/') rws), rstrI "st", rws,
        rcolonDash, rws, feeCUR, rws, .grp 1 feeAmtNil]

def feeRE6 : RE :=
  rcat [rstrI "sc", rws, rcolonDash, rws, feeCUR, rws, .grp 1 feeAmtNil]

def feeRE7 : RE :=
  rcat [rstrI "st", rws, rcolonDash, rws, feeCUR, rws, .grp 1 feeAmtNil]

def feeRE8 : RE :=
  rcat [rstrI "female", rws, rcolonDash, rws, feeCUR, rws, .grp 1 feeAmtNil]

def feeRE9 : RE :=
  rcat [ralt [rstrI "ph", rstrI "pwd", rstrI "divyang"], rws, rcolonDash, rws,
        feeCUR, rws, .grp 1 feeAmtNil]

def feeRE10 : RE :=
  rcat [rstrI "ex", .star (.cls (fun c => c = '-' || jsSpace c)),
        rstrI "servicem", .cls (fun c => c.toLower = 'a' || c.toLower = 'e'),
        rchI 'n', rws, rcolonDash, rws, feeCUR, rws, .grp 1 feeAmtNil]

def feePatterns : List (RE × String) :=
  [(feeRE1, "General/EWS/OBC"), (feeRE2, "General"), (feeRE3, "OBC"),
   (feeRE4, "EWS"), (feeRE5, "SC/ST"), (feeRE6, "SC"), (feeRE7, "ST"),
   (feeRE8, "Female"), (feeRE9, "PH/PWD"), (feeRE10, "Ex-Serviceman")]

/-- Fee normalization applied to a raw capture: nil or exempted become
"Nil", otherwise thousands separators are stripped and the amount is
wrapped as a rupee figure. -/
def feeOf (raw : Chars) : String :=
  if lowerChars raw = "nil".toList || lowerChars raw = "exempted".toList then "Nil"
  else "₹" ++ (⟨stripCommas raw⟩ : String) ++ "/-"

def feeStep (st : Chars) (acc : List FeeEntry) (p : RE × String) : List FeeEntry :=
  match reSearch p.1 st with
  | some m =>
    match cap m 1 with
    | some g =>
      if g.isEmpty then acc
      else if acc.any (fun f => f.category = p.2) then acc
      else acc ++ [⟨p.2, feeOf g⟩]
    | none => acc
  | none => acc

def extractFees (text : String) : List FeeEntry :=
  let feeSection := extractSection text
    ["Application Fee", "APPLICATION FEE", "Exam Fee", "EXAM FEE"]
  let searchText := if feeSection = "" then text else feeSection
  feePatterns.foldl (feeStep searchText.toList) []

/- ### extractAgeLimit -/

structure AgeEntry where
  category : String
  minAge : String
  maxAge : String
deriving DecidableEq

def singleAgeRE : RE :=
  rcat [ralt [rstrI "minimum", rstrI "min"], rws, ropt (rstrI "age"), rws,
        rcolonDash, rws, .grp 1 rd1, rws,
        ropt (.seq (rstrI "year") (ropt (rchI 's'))),
        .star (.cls (fun c => jsSpace c || c = ',')),
        ralt [rstrI "maximum", rstrI "max"], rws, ropt (rstrI "age"), rws,
        rcolonDash, rws, .grp 2 rd1]

def rangeAgeRE : RE :=
  rcat [.grp 1 rd1, rws, ralt [rstrI "to", rch '-'], rws, .grp 2 rd1, rws,
        .seq (rstrI "year") (ropt (rchI 's'))]

/-- Front of the direct-range alternative of an age category pattern, up
to but excluding the final captured maximum. -/
def ageRangeFront (kw : RE) : RE :=
  .seq kw (rcat [rws, rcolonDash, rws, .grp 1 rd1, rws,
                 ralt [rstrI "to", rch '-'], rws])

/-- Front of the maximum-only alternative of an age category pattern, up
to but excluding the final captured maximum. -/
def ageMaxFront (kw : RE) : RE :=
  .seq kw (rcat [rws, rcolonDash, .star (.cls (fun c => !c.isDigit)),
                 rstrI "max", ropt (rstrI "imum"), rws])

/-- An age category pattern: either a direct range (groups 1 and 2) or a
maximum-only form (group 3). -/
def ageCatRE (kwA kwB : RE) : RE :=
  .alt (.seq (ageRangeFront kwA) (.grp 2 rd1)) (.seq (ageMaxFront kwB) (.grp 3 rd1))

def ageGeneralRE : RE := ageCatRE (rstrI "general") (rstrI "general")

def ageObcRE : RE := ageCatRE (rstrI "obc") (rstrI "obc")

def ageScRE : RE :=
  ageCatRE (.seq (rstrI "sc") (ropt (rcat [rws, rch '/', rws, rstrI "st"])))
    (rstrI "sc")

def ageEwsRE : RE := ageCatRE (rstrI "ews") (rstrI "ews")

def ageCatPatterns : List (RE × String) :=
  [(ageGeneralRE, "General"), (ageObcRE, "OBC"), (ageScRE, "SC/ST"),
   (ageEwsRE, "EWS")]

/-- The entry the source builds from a category match: group 1 or the
default minimum 18, and group 2, else group 3, else the default maximum
35, with JavaScript truthiness on the captures. -/
def ageEntryOf (catName : String) (m : RMatch) : AgeEntry :=
  ⟨catName, jsOrOpt (capStr m 1) "18",
   jsOrOpt (capStr m 2) (jsOrOpt (capStr m 3) "35")⟩

def extractAgeLimit (text : String) : List AgeEntry :=
  let ageSection := extractSection text ["Age Limit", "AGE LIMIT", "Age Limits"]
  let searchText := if ageSection = "" then text else ageSection
  let st := searchText.toList
  let ages0 : List AgeEntry :=
    match reSearch singleAgeRE st with
    | some m => [⟨"General", (capStr m 1).getD "", (capStr m 2).getD ""⟩]
    | none => []
  let ages1 : List AgeEntry :=
    if ages0 = [] then
      match reSearch rangeAgeRE st with
      | some m => [⟨"General", (capStr m 1).getD "", (capStr m 2).getD ""⟩]
      | none => []
    else ages0
  ageCatPatterns.foldl (fun acc p =>
    match reSearch p.1 st with
    | some m =>
      if acc.any (fun a => a.category = p.2) then acc
      else acc ++ [ageEntryOf p.2 m]
    | none => acc) ages1

/- ### extractPhysicalEligibility -/

structure PhysEntry where
  criteria : String
  male : String
  female : String
deriving DecidableEq

/-- A decimal number: digits, optional dot, more digits. -/
def decimalNum : RE := rcat [rd1, ropt (rch '.'), .star rdigit]

def nonDigits : RE := .star (.cls (fun c => !c.isDigit))

def heightRE : RE :=
  rcat [rstrI "height", nonDigits, .grp 1 decimalNum, rws,
        ropt (ralt [rstrI "cm", rstrI "meter"]), nonDigits,
        ropt (rstrI "male"), nonDigits, ropt (rstrI "female"), nonDigits,
        ropt (.grp 2 decimalNum)]

def chestRE : RE :=
  rcat [rstrI "chest", nonDigits, .grp 1 rd1, nonDigits, rch '-', nonDigits,
        .grp 2 rd1]

def weightRE : RE :=
  rcat [rstrI "weight", nonDigits, .grp 1 decimalNum, rws, ropt (rstrI "kg")]

def extractPhysicalEligibility (text : String) : List PhysEntry :=
  let physSection := extractSection text
    ["Physical Eligibility", "PHYSICAL ELIGIBILITY", "Physical Standard",
     "PHYSICAL STANDARD", "Physical Test"]
  if physSection = "" then []
  else
    let ps := physSection.toList
    let hs : List PhysEntry :=
      match reSearch heightRE ps with
      | some m =>
        [⟨"Height",
          (match capStr m 1 with
           | some s => if s = "" then "NA" else s ++ " cm"
           | none => "NA"),
          (match capStr m 2 with
           | some s => if s = "" then "NA" else s ++ " cm"
           | none => "NA")⟩]
      | none => []
    let cs : List PhysEntry :=
      match reSearch chestRE ps with
      | some m =>
        [⟨"Chest", (capStr m 1).getD "" ++ "-" ++ (capStr m 2).getD "" ++ " cm", "NA"⟩]
      | none => []
    let ws : List PhysEntry :=
      match reSearch weightRE ps with
      | some m => [⟨"Weight", (capStr m 1).getD "" ++ " kg", "NA"⟩]
      | none => []
    hs ++ cs ++ ws

/- ### extractVacancyDetails -/

structure VacancyEntry where
  postName : String
  totalPost : String
  eligibility : String
deriving DecidableEq

def totalPostRE : RE :=
  rcat [rstrI "total", rws,
        ralt [rstrI "post", rstrI "vacancy", rstrI "vacancies"], rws,
        rcolonDash, rws, .grp 1 feeAmt]

def postKw : RE :=
  ralt [rstrI "constable", rstrI "officer", rstrI "clerk", rstrI "assistant",
        rstrI "manager", rstrI "engineer", rstrI "teacher", rstrI "inspector"]

def vacLineRE : RE :=
  rcat [.grp 1 (.seq (rplus (.cls (fun c => c.isAlpha || jsSpace c))) (ropt postKw)),
        rplus (.cls (fun c => c = ':' || c = '-' || jsSpace c)), .grp 2 feeAmt,
        rws, ropt (ralt [rstrI "post", rstrI "vacancy"])]

def vacTitleRE : RE :=
  rcat [ralt [rstrI "recruitment", rstrI "notification",
              rcat [rstrI "online", rws, rstrI "form"]],
        rws, ropt (ralt [rstrI "for", rstrI "of"]), rws,
        .grp 1 (rplus (.cls (fun c => c.isAlpha || jsSpace c)))]

def extractVacancyDetails (text : String) : List VacancyEntry :=
  let vacSection := extractSection text
    ["Vacancy Details", "VACANCY DETAILS", "Post Wise Vacancy",
     "POST WISE VACANCY", "Total Post"]
  let searchText := if vacSection = "" then text else vacSection
  let totalM := reSearch totalPostRE text.toList
  let vacancies := (splitNl searchText.toList).foldl (fun acc line =>
    match reSearch vacLineRE line with
    | some m =>
      match cap m 1, cap m 2 with
      | some g1, some g2 =>
        if 3 < (trimChars g1).length then
          acc ++ [⟨⟨trimChars g1⟩, ⟨stripCommas g2⟩, ""⟩]
        else acc
      | _, _ => acc
    | none => acc) []
  if vacancies = [] then
    match totalM with
    | some tm =>
      let postName : String :=
        match reSearch vacTitleRE text.toList with
        | some m =>
          match cap m 1 with
          | some g => ⟨trimChars g⟩
          | none => "Various Posts"
        | none => "Various Posts"
      [⟨postName, ⟨stripCommas ((cap tm 1).getD [])⟩, ""⟩]
    | none => vacancies
  else vacancies

/- ### extractLinks -/

structure Links where
  applyOnlineUrl : Option String := none
  notificationUrl : Option String := none
  officialWebsiteUrl : Option String := none
  admitCardUrl : Option String := none
  resultUrl : Option String := none
  answerKeyUrl : Option String := none
deriving DecidableEq

/-- Characters allowed inside a URL by the source's URL pattern. -/
def urlOkChar (c : Char) : Bool :=
  !(jsSpace c || c = '<' || c = '>' || c = '"' || c = '\'' || c = ')' || c = ']')

/-- Case-insensitive literal match at the start of the input, returning
the consumed original characters and the rest. -/
def matchCI : Chars → Chars → Option (Chars × Chars)
  | [], s => some ([], s)
  | _ :: _, [] => none
  | p :: pt, c :: ct =>
    if c.toLower = p then (matchCI pt ct).map (fun r => (c :: r.1, r.2)) else none

/-- After a matched scheme, greedily take at least one allowed character. -/
def urlAfterScheme (pre rest : Chars) : Option (Chars × Chars) :=
  let tk := rest.takeWhile urlOkChar
  if tk = [] then none else some (pre ++ tk, rest.drop tk.length)

/-- Match the URL pattern anchored at the start of `s`: `http`, optional
`s`, `://`, then at least one allowed character, greedily. -/
def urlAt (s : Chars) : Option (Chars × Chars) :=
  match matchCI "https://".toList s with
  | some pr => urlAfterScheme pr.1 pr.2
  | none =>
    match matchCI "http://".toList s with
    | some pr => urlAfterScheme pr.1 pr.2
    | none => none

def findUrlsAux : Nat → Chars → List String
  | 0, _ => []
  | _ + 1, [] => []
  | fuel + 1, s@(_ :: t) =>
    match urlAt s with
    | some (u, rest) => (⟨u⟩ : String) :: findUrlsAux fuel rest
    | none => findUrlsAux fuel t

/-- All URL-shaped substrings of the document, in order (the source's
global URL regex). -/
def findUrls (text : String) : List String :=
  findUrlsAux text.toList.length text.toList

inductive Bucket where
  | apply | notif | hallTicket | res | ans | official
deriving DecidableEq

/-- The first keyword check that succeeds for a URL, in the source's fixed
evaluation order, applied to the lowercased URL. -/
def bucketOf (url : String) : Option Bucket :=
  let lu := lowerChars url.toList
  if containsSub lu "apply".toList || containsSub lu "registration".toList then
    some .apply
  else if containsSub lu "notification".toList || containsSub lu "pdf".toList then
    some .notif
  else if containsSub lu "admit".toList || containsSub lu "hall-ticket".toList then
    some .hallTicket
  else if containsSub lu "result".toList then some .res
  else if containsSub lu "answer".toList || containsSub lu "key".toList then
    some .ans
  else if containsSub lu "gov.in".toList || containsSub lu "nic.in".toList then
    some .official
  else none

def linkStep (l : Links) (url : String) : Links :=
  match bucketOf url with
  | some .apply =>
    if l.applyOnlineUrl = none then { l with applyOnlineUrl := some url } else l
  | some .notif =>
    if l.notificationUrl = none then { l with notificationUrl := some url } else l
  | some .hallTicket =>
    if l.admitCardUrl = none then { l with admitCardUrl := some url } else l
  | some .res =>
    if l.resultUrl = none then { l with resultUrl := some url } else l
  | some .ans =>
    if l.answerKeyUrl = none then { l with answerKeyUrl := some url } else l
  | some .official =>
    if l.officialWebsiteUrl = none then { l with officialWebsiteUrl := some url } else l
  | none => l

def extractLinks (text : String) : Links :=
  (findUrls text).foldl linkStep {}

/- ### extractSelectionProcess -/

def selStages : List String :=
  ["Written Exam", "Written Test", "CBT", "Computer Based Test",
   "Physical Efficiency Test", "PET", "Physical Standard Test", "PST",
   "Document Verification", "Medical Test", "Medical Examination",
   "Interview", "Skill Test", "Typing Test", "Trade Test"]

def extractSelectionProcess (text : String) : List String :=
  let selSection := extractSection text
    ["Selection Process", "SELECTION PROCESS", "Mode of Selection"]
  let searchText := if selSection = "" then text else selSection
  let lowSt := lowerChars searchText.toList
  selStages.foldl (fun acc stage =>
    if containsSub lowSt (lowerChars stage.toList) then
      let normalized : String := ⟨trimChars (collapseWs stage.toList)⟩
      if acc.contains normalized then acc else acc ++ [normalized]
    else acc) []

/- ### detectType -/

inductive JobType where
  | job | admitCard | result | answerKey | admission
deriving DecidableEq

def detectType (text : String) : JobType :=
  let lowerText := lowerChars text.toList
  if containsSub lowerText "admit card".toList ||
     containsSub lowerText "hall ticket".toList ||
     containsSub lowerText "call letter".toList then .admitCard
  else if containsSub lowerText "result".toList &&
          (containsSub lowerText "download".toList ||
           containsSub lowerText "declared".toList ||
           containsSub lowerText "out".toList) then .result
  else if containsSub lowerText "answer key".toList then .answerKey
  else if containsSub lowerText "admission".toList &&
          !containsSub lowerText "admit card".toList then .admission
  else .job

/- ### extractTitle, extractDepartment, extractQualification, extractState -/

def titleKwRE : RE :=
  ralt [rstrI "recruitment", rstrI "notification",
        rcat [rstrI "online", rws, rstrI "form"], rstrI "vacancy", rstrI "bharti"]

def titleDocRE : RE :=
  rcat [ralt [rstrI "recruitment", rstrI "notification",
              rcat [rstrI "online", rws, rstrI "form"]],
        rws, ropt (ralt [rstrI "for", rstrI "of"]), rws,
        .grp 1 (.seq
          (rplus (.cls (fun c => c.isAlpha || c.isDigit || jsSpace c || c = '-')))
          (ropt (ralt [rstr "2024", rstr "2025", rstr "2026"])))]

def extractTitle (text : String) : String :=
  let lines := (splitNl text.toList).filter (fun l => (trimChars l).length > 0)
  match (lines.take 10).find? (fun line =>
      (reSearch titleKwRE line).isSome && line.length < 150) with
  | some line => ⟨trimChars (stripEmphasis (trimChars line))⟩
  | none =>
    match reSearch titleDocRE text.toList with
    | some m => ⟨trimChars m.matched⟩
    | none =>
      match lines with
      | [] => "Government Job Notification"
      | l0 :: _ =>
        let s : String := ⟨l0.take 100⟩
        if s = "" then "Government Job Notification" else s

def deptRE1 : RE :=
  rcat [ralt [rstrI "organization", rstrI "department", rstrI "ministry",
              rstrI "commission", rstrI "board", rstrI "corporation"],
        rws, rcolonDash, rws,
        .grp 1 (rplus (.cls (fun c => c.isAlpha || jsSpace c)))]

def deptRE2 : RE :=
  .grp 1 (.seq (rplus (.cls (fun c => c.isAlpha || jsSpace c)))
    (ralt [rstrI "commission", rstrI "board", rstrI "ministry",
           rstrI "department", rstrI "corporation", rstrI "police",
           rstrI "railway", rstrI "bank"]))

def deptTry (tl : Chars) (r : RE) : Option String :=
  match reSearch r tl with
  | some m =>
    match cap m 1 with
    | some g => if g.isEmpty then none else some ⟨(trimChars g).take 100⟩
    | none => none
  | none => none

def extractDepartment (text : String) : String :=
  match deptTry text.toList deptRE1 with
  | some s => s
  | none =>
    match deptTry text.toList deptRE2 with
    | some s => s
    | none => "Government of India"

def qualRE1 : RE :=
  rcat [rch '1', rch '0', rstrI "th", rws,
        ralt [rstrI "pass", rstrI "passed", rstrI "class"]]

def qualRE2 : RE :=
  rcat [rch '1', rch '2', rstrI "th", rws,
        ralt [rstrI "pass", rstrI "passed", rstrI "class", rstrI "intermediate"]]

def qualRE3 : RE := ralt [rstrI "graduation", rstrI "graduate", rstrI "bachelor"]

def qualRE4 : RE :=
  ralt [rcat [rstrI "post", rws, rstrI "graduation"], rstrI "master"]

def qualRE5 : RE :=
  ralt [rcat [rchI 'b', ropt (rch '.'), rstrI "tech"],
        rcat [rchI 'b', ropt (rch '.'), rchI 'e', rch '.'],
        rstrI "engineering"]

def qualRE6 : RE := ralt [rstrI "mbbs", rstrI "medical"]

/-- The source pushes the regex source string, with `backslash-s-star`
and `?:` and `|` replaced by spaces; this performs that first replace. -/
def qualSrcClean : Chars → Chars
  | [] => []
  | '\\' :: 's' :: '*' :: t => ' ' :: qualSrcClean t
  | '?' :: ':' :: t => ' ' :: qualSrcClean t
  | '|' :: t => ' ' :: qualSrcClean t
  | c :: t => c :: qualSrcClean t

/-- The display string the source derives from a qualification pattern's
regex source text (both global replaces applied). -/
def qualDisplay (src : String) : String :=
  ⟨(qualSrcClean src.toList).filter (fun c => c ≠ '\\')⟩

def qualPatterns : List (RE × String) :=
  [(qualRE1, "10th\\s*(?:pass|passed|class)"),
   (qualRE2, "12th\\s*(?:pass|passed|class|intermediate)"),
   (qualRE3, "graduation|graduate|bachelor"),
   (qualRE4, "post\\s*graduation|master"),
   (qualRE5, "b\\.?tech|b\\.?e\\.|engineering"),
   (qualRE6, "mbbs|medical")]

def extractQualification (text : String) : String :=
  let qualSection := extractSection text
    ["Educational Qualification", "EDUCATIONAL QUALIFICATION",
     "Qualification", "QUALIFICATION", "Eligibility"]
  if qualSection ≠ "" ∧ qualSection.length > 20 then ⟨qualSection.toList.take 500⟩
  else
    let found := qualPatterns.foldl (fun (acc : List String) p =>
      if (reSearch p.1 text.toList).isSome then acc ++ [qualDisplay p.2] else acc) []
    String.intercalate ", " found

def statesList : List String :=
  ["Uttar Pradesh", "UP", "Bihar", "Rajasthan", "Madhya Pradesh", "MP",
   "Maharashtra", "Gujarat", "Karnataka", "Tamil Nadu", "Kerala",
   "West Bengal", "Haryana", "Punjab", "Delhi", "Uttarakhand",
   "Jharkhand", "Chhattisgarh", "Odisha", "Assam", "Telangana",
   "Andhra Pradesh", "Himachal Pradesh", "Jammu", "Kashmir"]

def extractState (text : String) : String :=
  let tl := text.toList
  match statesList.find? (fun st => containsSub tl st.toList) with
  | some st =>
    if st = "UP" then "Uttar Pradesh"
    else if st = "MP" then "Madhya Pradesh"
    else st
  | none =>
    if containsSub (lowerChars tl) "all india".toList ||
       containsSub (lowerChars tl) "central government".toList then "All India"
    else ""

/- ### The aggregator parseJobNotification -/

structure ParsedJob where
  title : String
  department : String
  type : JobType
  shortInfo : String
  qualification : Option String
  state : Option String
  vacancyDetails : List VacancyEntry
  applicationFee : List FeeEntry
  importantDates : List DateEntry
  ageLimit : List AgeEntry
  eligibilityDetails : Option String
  selectionProcess : List String
  physicalEligibility : List PhysEntry
  applyOnlineUrl : Option String
  admitCardUrl : Option String
  resultUrl : Option String
  answerKeyUrl : Option String
  notificationUrl : Option String
  officialWebsiteUrl : Option String
deriving DecidableEq

def jsParseIntOr0 (s : String) : Int :=
  match jsParseInt s.toList with
  | some n => n
  | none => 0

/-- The aggregator's total-posts figure: the reduce over vacancy entries
of parseInt of totalPost, with NaN treated as 0. -/
def totalPosts (vs : List VacancyEntry) : Int :=
  vs.foldl (fun sum v => sum + jsParseIntOr0 v.totalPost) 0

def hasSubStr (s pat : String) : Bool := containsSub s.toList pat.toList

def shortInfoOf (department title : String) (tp : Int)
    (importantDates : List DateEntry) : String :=
  let mid : String := if tp > 0 then "Total " ++ toString tp ++ " posts available." else ""
  let lastDate : Option String :=
    (importantDates.find? (fun d => hasSubStr d.label "Last")).map (fun d => d.date)
  let tailPart : String :=
    match lastDate with
    | some d => if d = "" then "" else "Last date to apply: " ++ d ++ "."
    | none => ""
  ⟨trimChars (department ++ " has released notification for " ++ title ++ ". " ++
      mid ++ " " ++ tailPart).toList⟩

def parseJobNotification (rawText : String) : ParsedJob :=
  let title := extractTitle rawText
  let department := extractDepartment rawText
  let jt := detectType rawText
  let importantDates := extractDates rawText
  let applicationFee := extractFees rawText
  let ageLimit := extractAgeLimit rawText
  let physicalEligibility := extractPhysicalEligibility rawText
  let vacancyDetails := extractVacancyDetails rawText
  let selectionProcess := extractSelectionProcess rawText
  let qualification := extractQualification rawText
  let state := extractState rawText
  let links := extractLinks rawText
  { title := title
    department := department
    type := jt
    shortInfo := shortInfoOf department title (totalPosts vacancyDetails) importantDates
    qualification := if qualification = "" then none else some qualification
    state := if state = "" then none else some state
    vacancyDetails := vacancyDetails
    applicationFee := applicationFee
    importantDates := importantDates
    ageLimit := ageLimit
    eligibilityDetails := some qualification
    selectionProcess := selectionProcess
    physicalEligibility := physicalEligibility
    applyOnlineUrl := links.applyOnlineUrl
    admitCardUrl := links.admitCardUrl
    resultUrl := links.resultUrl
    answerKeyUrl := links.answerKeyUrl
    notificationUrl := links.notificationUrl
    officialWebsiteUrl := links.officialWebsiteUrl }

/- ### Specification-side description of extractSection (for claim C1) -/

/-- End position of a located section: the first next-section marker when
it sits at a positive offset from the section start, 500 characters past
the start when the marker is immediately at the start (the source's
`index || 500` falsiness quirk), and 1000 characters past the start when
no marker exists. -/
def sectionEndIdx (tl : Chars) (startIdx : Nat) : Nat :=
  match reSearch markerRE (tl.drop startIdx) with
  | some m => startIdx + (if m.index = 0 then 500 else m.index)
  | none => startIdx + 1000

/-- The section described by the amended claim C1: the first header
variant (in list order) whose lowercase form occurs in the lowercased
text wins, the section starts at the end of that occurrence, runs to
`sectionEndIdx`, is capped at 1500 characters, and is trimmed. -/
def sectionSpec (text : String) (headers : List String) : Option String :=
  (headers.find? (fun hd =>
      containsSub (lowerChars text.toList) (lowerChars hd.toList))).map (fun hd =>
    let idx := (subIndex (lowerChars text.toList) (lowerChars hd.toList)).getD 0
    let st := idx + hd.length
    ⟨trimChars (sliceCh text.toList st (min (sectionEndIdx text.toList st) (st + 1500)))⟩)

/-- A document whose located section has 1200 characters of content and
no next-section marker. -/
def capDemoText : String := "HEADER" ++ ⟨List.replicate 1200 'a'⟩

/-- The Links field owned by a bucket. -/
def bucketGet (b : Bucket) (l : Links) : Option String :=
  match b with
  | .apply => l.applyOnlineUrl
  | .notif => l.notificationUrl
  | .hallTicket => l.admitCardUrl
  | .res => l.resultUrl
  | .ans => l.answerKeyUrl
  | .official => l.officialWebsiteUrl

/- ### Matcher unfolding lemmas -/

theorem reM_zero (r : RE) (s : Chars) (c : Caps)
    (k : Chars → Caps → Option (Caps × Chars)) : reM 0 r s c k = none := rfl

theorem reM_eps (n : Nat) (s : Chars) (c : Caps)
    (k : Chars → Caps → Option (Caps × Chars)) : reM (n + 1) .eps s c k = k s c := rfl

theorem reM_cls_nil (n : Nat) (p : Char → Bool) (c : Caps)
    (k : Chars → Caps → Option (Caps × Chars)) : reM (n + 1) (.cls p) [] c k = none := rfl

theorem reM_cls_cons (n : Nat) (p : Char → Bool) (ch : Char) (rest : Chars)
    (c : Caps) (k : Chars → Caps → Option (Caps × Chars)) :
    reM (n + 1) (.cls p) (ch :: rest) c k = if p ch then k rest c else none := rfl

theorem reM_seq (n : Nat) (a b : RE) (s : Chars) (c : Caps)
    (k : Chars → Caps → Option (Caps × Chars)) :
    reM (n + 1) (.seq a b) s c k = reM n a s c (fun s1 c1 => reM n b s1 c1 k) := rfl

theorem reM_alt (n : Nat) (a b : RE) (s : Chars) (c : Caps)
    (k : Chars → Caps → Option (Caps × Chars)) :
    reM (n + 1) (.alt a b) s c k =
      match reM n a s c k with
      | some v => some v
      | none => reM n b s c k := rfl

theorem reM_star (n : Nat) (a : RE) (s : Chars) (c : Caps)
    (k : Chars → Caps → Option (Caps × Chars)) :
    reM (n + 1) (.star a) s c k =
      match reM n a s c (fun s1 c1 =>
          if s1.length < s.length then reM n (.star a) s1 c1 k else none) with
      | some v => some v
      | none => k s c := rfl

theorem reM_grp (n m : Nat) (a : RE) (s : Chars) (c : Caps)
    (k : Chars → Caps → Option (Caps × Chars)) :
    reM (n + 1) (.grp m a) s c k =
      reM n a s c (fun s1 c1 => k s1 ((m, s.take (s.length - s1.length)) :: c1)) := rfl

/-- Every successful run of the matcher factors through its
continuation, at a suffix no longer than the input. -/
theorem reM_factor (fuel : Nat) :
    ∀ (r : RE) (s : Chars) (c : Caps)
      (k : Chars → Caps → Option (Caps × Chars)) (v : Caps × Chars),
      reM fuel r s c k = some v →
      ∃ s1 c1, k s1 c1 = some v ∧ s1.length ≤ s.length := by
  induction fuel with
  | zero =>
    intro r s c k v h
    rw [reM_zero] at h
    exact absurd h (by simp)
  | succ n ih =>
    intro r s c k v h
    cases r with
    | eps => exact ⟨s, c, h, le_refl _⟩
    | cls p =>
      cases s with
      | nil =>
        rw [reM_cls_nil] at h
        exact absurd h (by simp)
      | cons ch rest =>
        rw [reM_cls_cons] at h
        by_cases hp : p ch
        · rw [if_pos hp] at h
          exact ⟨rest, c, h, by simp⟩
        · rw [if_neg hp] at h
          exact absurd h (by simp)
    | seq a b =>
      rw [reM_seq] at h
      obtain ⟨s1, c1, h1, l1⟩ := ih a s c _ v h
      obtain ⟨s2, c2, h2, l2⟩ := ih b s1 c1 k v h1
      exact ⟨s2, c2, h2, le_trans l2 l1⟩
    | alt a b =>
      rw [reM_alt] at h
      cases heq : reM n a s c k with
      | some w =>
        rw [heq] at h
        cases h
        exact ih a s c k v heq
      | none =>
        rw [heq] at h
        exact ih b s c k v h
    | star a =>
      rw [reM_star] at h
      cases heq : reM n a s c (fun s1 c1 =>
          if s1.length < s.length then reM n (.star a) s1 c1 k else none) with
      | some w =>
        rw [heq] at h
        cases h
        obtain ⟨s1, c1, h1, l1⟩ := ih a s c _ v heq
        by_cases hlt : s1.length < s.length
        · rw [if_pos hlt] at h1
          obtain ⟨s2, c2, h2, l2⟩ := ih (.star a) s1 c1 k v h1
          exact ⟨s2, c2, h2, le_trans l2 l1⟩
        · rw [if_neg hlt] at h1
          exact absurd h1 (by simp)
      | none =>
        rw [heq] at h
        exact ⟨s, c, h, le_refl _⟩
    | grp m a =>
      rw [reM_grp] at h
      obtain ⟨s1, c1, h1, l1⟩ := ih a s c _ v h
      exact ⟨s1, (m, s.take (s.length - s1.length)) :: c1, h1, l1⟩

/-- A successful match of `front` followed by a capture group around a
pattern that begins with a mandatory character class records a non-empty
capture for that group. -/
theorem seq_grp_stop (f q : RE) (p : Char → Bool) (gn : Nat) (fuel : Nat)
    (s : Chars) (c0 : Caps) (v : Caps × Chars)
    (h : reM fuel (.seq f (.grp gn (.seq (.cls p) q))) s c0
      (fun rest c => some (c, rest)) = some v) :
    ∃ x, x ≠ [] ∧ capLook v.1 gn = some x := by
  cases fuel with
  | zero => rw [reM_zero] at h; exact absurd h (by simp)
  | succ n =>
    rw [reM_seq] at h
    obtain ⟨s1, c1, h1, _⟩ := reM_factor n f s c0 _ v h
    cases n with
    | zero => rw [reM_zero] at h1; exact absurd h1 (by simp)
    | succ n2 =>
      rw [reM_grp] at h1
      cases n2 with
      | zero => rw [reM_zero] at h1; exact absurd h1 (by simp)
      | succ n3 =>
        rw [reM_seq] at h1
        cases n3 with
        | zero => rw [reM_zero] at h1; exact absurd h1 (by simp)
        | succ n4 =>
          cases s1 with
          | nil => rw [reM_cls_nil] at h1; exact absurd h1 (by simp)
          | cons ch rest1 =>
            rw [reM_cls_cons] at h1
            by_cases hp : p ch
            · rw [if_pos hp] at h1
              obtain ⟨s2, c2, h2, l2⟩ := reM_factor (n4 + 1) q rest1 c1 _ v h1
              simp only [Option.some.injEq] at h2
              refine ⟨(ch :: rest1).take ((ch :: rest1).length - s2.length), ?_, ?_⟩
              · have hlen : (ch :: rest1).length - s2.length = rest1.length - s2.length + 1 := by
                  simp only [List.length_cons]
                  omega
                rw [hlen]
                simp
              · rw [← h2]
                simp [capLook]
            · rw [if_neg hp] at h1
              exact absurd h1 (by simp)

/-- Matching an alternation whose left branch ends in capture group 2
around a digit run and whose right branch ends in capture group 3 around
a digit run always records a non-empty capture for group 2 or group 3. -/
theorem alt_grp23_stop (fA fB : RE) (fuel : Nat) (s : Chars) (c0 : Caps)
    (v : Caps × Chars)
    (h : reM fuel (.alt (.seq fA (.grp 2 rd1)) (.seq fB (.grp 3 rd1))) s c0
      (fun rest c => some (c, rest)) = some v) :
    (∃ x, x ≠ [] ∧ capLook v.1 2 = some x) ∨
    (∃ x, x ≠ [] ∧ capLook v.1 3 = some x) := by
  have hrd : rd1 = .seq (.cls Char.isDigit) (.star (.cls Char.isDigit)) := rfl
  cases fuel with
  | zero => rw [reM_zero] at h; exact absurd h (by simp)
  | succ n =>
    rw [reM_alt] at h
    cases heq : reM n (.seq fA (.grp 2 rd1)) s c0 (fun rest c => some (c, rest)) with
    | some w =>
      rw [heq] at h
      cases h
      rw [hrd] at heq
      exact Or.inl (seq_grp_stop fA _ Char.isDigit 2 n s c0 v heq)
    | none =>
      rw [heq] at h
      rw [hrd] at h
      exact Or.inr (seq_grp_stop fB _ Char.isDigit 3 n s c0 v h)

theorem reTry_grp23 (fA fB : RE) (fuel : Nat) (s : Chars) (c : Caps) (len : Nat)
    (h : reTry fuel (.alt (.seq fA (.grp 2 rd1)) (.seq fB (.grp 3 rd1))) s
      = some (c, len)) :
    (∃ x, x ≠ [] ∧ capLook c 2 = some x) ∨
    (∃ x, x ≠ [] ∧ capLook c 3 = some x) := by
  unfold reTry at h
  cases heq : reM fuel (.alt (.seq fA (.grp 2 rd1)) (.seq fB (.grp 3 rd1))) s []
      (fun rest cc => some (cc, rest)) with
  | some w =>
    rw [heq] at h
    have := alt_grp23_stop fA fB fuel s [] w heq
    obtain ⟨c1, rest1⟩ := w
    simp only [Option.some.injEq, Prod.mk.injEq] at h
    rw [← h.1]
    exact this
  | none =>
    rw [heq] at h
    exact absurd h (by simp)

theorem reSearchAux_grp23 (fA fB : RE) (fuel : Nat) :
    ∀ (s : Chars) (i : Nat) (m : RMatch),
      reSearchAux fuel (.alt (.seq fA (.grp 2 rd1)) (.seq fB (.grp 3 rd1))) s i
        = some m →
      (∃ x, x ≠ [] ∧ capLook m.caps 2 = some x) ∨
      (∃ x, x ≠ [] ∧ capLook m.caps 3 = some x) := by
  intro s
  induction s with
  | nil =>
    intro i m h
    rw [reSearchAux] at h
    cases heq : reTry fuel (.alt (.seq fA (.grp 2 rd1)) (.seq fB (.grp 3 rd1))) [] with
    | some w =>
      rw [heq] at h
      obtain ⟨c, len⟩ := w
      simp only [Option.some.injEq] at h
      rw [← h]
      exact reTry_grp23 fA fB fuel [] c len heq
    | none => rw [heq] at h; exact absurd h (by simp)
  | cons ch t ih =>
    intro i m h
    rw [reSearchAux] at h
    cases heq : reTry fuel (.alt (.seq fA (.grp 2 rd1)) (.seq fB (.grp 3 rd1))) (ch :: t) with
    | some w =>
      rw [heq] at h
      obtain ⟨c, len⟩ := w
      simp only [Option.some.injEq] at h
      rw [← h]
      exact reTry_grp23 fA fB fuel (ch :: t) c len heq
    | none =>
      rw [heq] at h
      exact ih (i + 1) m h

/-- Any age-category pattern match records a non-empty capture in group 2
(direct range) or group 3 (maximum-only). -/
theorem ageCat_search_caps (kwA kwB : RE) (s : Chars) (m : RMatch)
    (h : reSearch (ageCatRE kwA kwB) s = some m) :
    (∃ x, x ≠ [] ∧ capLook m.caps 2 = some x) ∨
    (∃ x, x ≠ [] ∧ capLook m.caps 3 = some x) := by
  unfold reSearch at h
  unfold ageCatRE at h
  exact reSearchAux_grp23 _ _ (reFuel s) s 0 m h

/-- C3 (amended): in extractAgeLimit, every successful match of one of the
four category-specific patterns records a non-empty capture for the direct
range maximum (group 2) or the maximum-only capture (group 3) — a match in
which neither numeric group captured is impossible, so the maxAge "35"
default is never exercised and a category keyword with no numbers produces
no entry — and when only a maximum is captured (group 1 absent) the
entry's minAge is "18". -/
theorem extractAgeLimit_category_defaults (p : RE × String)
    (hp : p ∈ ageCatPatterns) (s : Chars) (m : RMatch)
    (h : reSearch p.1 s = some m) :
    ((∃ x, x ≠ [] ∧ cap m 2 = some x) ∨ (∃ x, x ≠ [] ∧ cap m 3 = some x)) ∧
    (cap m 1 = none → (ageEntryOf p.2 m).minAge = "18") := by
  constructor
  · simp only [ageCatPatterns, List.mem_cons, List.not_mem_nil, or_false] at hp
    rcases hp with rfl | rfl | rfl | rfl
    · exact ageCat_search_caps _ _ s m h
    · exact ageCat_search_caps _ _ s m h
    · exact ageCat_search_caps _ _ s m h
    · exact ageCat_search_caps _ _ s m h
  · intro h1
    simp [ageEntryOf, jsOrOpt, capStr, h1]

/-- Witness for C3 at the concrete input "obc max 30", whose OBC match
captures only group 3. -/
theorem extractAgeLimit_category_defaults_witness :
    ((∃ x, x ≠ [] ∧
        cap (⟨0, "obc max 30".toList, [(3, ['3', '0'])]⟩ : RMatch) 2 = some x) ∨
     (∃ x, x ≠ [] ∧
        cap (⟨0, "obc max 30".toList, [(3, ['3', '0'])]⟩ : RMatch) 3 = some x)) ∧
    (cap (⟨0, "obc max 30".toList, [(3, ['3', '0'])]⟩ : RMatch) 1 = none →
      (ageEntryOf "OBC" (⟨0, "obc max 30".toList, [(3, ['3', '0'])]⟩ : RMatch)).minAge
        = "18") :=
  extractAgeLimit_category_defaults (ageObcRE, "OBC")
    (by simp [ageCatPatterns]) "obc max 30".toList _ (by decide)

/-- C3 counterexample: a category keyword present with no numbers produces
no entry at all, rather than an entry with maxAge "35" as the claim
states. -/
theorem extractAgeLimit_keyword_without_numbers :
    extractAgeLimit "general age as per rules" = [] := by decide

theorem subIndex_none_of_not_contains (s p : Chars)
    (h : containsSub s p = false) : subIndex s p = none := by
  unfold containsSub at h
  cases hs : subIndex s p with
  | none => rfl
  | some i => rw [hs] at h; simp at h

/-- C1 (amended): whenever some header variant occurs case-insensitively
in the text, extractSection returns exactly the section described by
sectionSpec: it starts at the end of the first-listed occurring header,
ends at the first next-section marker when that marker is at a positive
offset (overall cap 1500 characters), extends 500 characters when the
marker is immediately at the section start, is capped at 1000 characters
when no marker is found, and is trimmed. -/
theorem extractSection_described (text : String) (headers : List String)
    (h : ∃ hd ∈ headers,
      containsSub (lowerChars text.toList) (lowerChars hd.toList) = true) :
    some (extractSection text headers) = sectionSpec text headers := by
  unfold extractSection sectionSpec
  induction headers with
  | nil => simp at h
  | cons hd rest ih =>
    by_cases hc : containsSub (lowerChars text.toList) (lowerChars hd.toList) = true
    · rw [show List.find?
            (fun hd => containsSub (lowerChars text.toList) (lowerChars hd.toList))
            (hd :: rest) = some hd from List.find?_cons_of_pos _ hc, Option.map_some']
      rw [sectionLoop]
      cases hsi : subIndex (lowerChars text.toList) (lowerChars hd.toList) with
      | none =>
        unfold containsSub at hc
        rw [hsi] at hc
        simp at hc
      | some idx => simp only [hsi, sectionEndIdx, Option.getD_some]
    · have hn : subIndex (lowerChars text.toList) (lowerChars hd.toList) = none :=
        subIndex_none_of_not_contains _ _ ((Bool.not_eq_true _).mp hc)
      rw [show List.find?
            (fun hd => containsSub (lowerChars text.toList) (lowerChars hd.toList))
            (hd :: rest) =
          List.find?
            (fun hd => containsSub (lowerChars text.toList) (lowerChars hd.toList))
            rest from List.find?_cons_of_neg _ hc]
      rw [sectionLoop]
      simp only [hn]
      apply ih
      rcases h with ⟨hd', hmem, hsub⟩
      rcases List.mem_cons.mp hmem with rfl | hmem'
      · exact absurd hsub hc
      · exact ⟨hd', hmem', hsub⟩

/-- Witness for C1 at a concrete text containing the header variant. -/
theorem extractSection_described_witness :
    (∃ hd ∈ ["Age Limit"],
      containsSub (lowerChars "Age Limit: 18 to 27 years".toList)
        (lowerChars hd.toList) = true) ∧
    some (extractSection "Age Limit: 18 to 27 years" ["Age Limit"]) =
      sectionSpec "Age Limit: 18 to 27 years" ["Age Limit"] :=
  ⟨by decide, extractSection_described _ _ (by decide)⟩

/-- C1 counterexample: with the next-section marker immediately at the
section start the returned section is the following 500 characters, not
the empty substring ending at the marker; and with 1200 characters of
content and no marker the section is capped at 1000 characters, not
1500. -/
theorem extractSection_caps_counterexample :
    extractSection "Fee\nABCDEFG:\nrest" ["Fee"] = "ABCDEFG:\nrest" ∧
    extractSection capDemoText ["HEADER"] = (⟨List.replicate 1000 'a'⟩ : String) := by
  constructor
  · decide
  · decide

/-- C4: detectType applies its keyword rules in a fixed order with the
first true rule winning: any text containing both "admit card" and
"admission" (case-insensitively) is classified admit-card, never
admission, and a text matching none of the four keyword rules is
classified job. -/
theorem detectType_priority (T : String) :
    (containsSub (lowerChars T.toList) "admit card".toList = true ∧
     containsSub (lowerChars T.toList) "admission".toList = true →
      detectType T = .admitCard) ∧
    ((containsSub (lowerChars T.toList) "admit card".toList ||
      containsSub (lowerChars T.toList) "hall ticket".toList ||
      containsSub (lowerChars T.toList) "call letter".toList) = false →
     (containsSub (lowerChars T.toList) "result".toList &&
      (containsSub (lowerChars T.toList) "download".toList ||
       containsSub (lowerChars T.toList) "declared".toList ||
       containsSub (lowerChars T.toList) "out".toList)) = false →
     containsSub (lowerChars T.toList) "answer key".toList = false →
     (containsSub (lowerChars T.toList) "admission".toList &&
      !containsSub (lowerChars T.toList) "admit card".toList) = false →
      detectType T = .job) := by
  constructor
  · intro hx
    unfold detectType
    dsimp only
    rw [hx.1]
    simp
  · intro h1 h2 h3 h4
    unfold detectType
    dsimp only
    rw [h1, h2, h3, h4]
    simp

/-- Witness for C4 at a text containing both trigger phrases. -/
theorem detectType_priority_witness :
    containsSub (lowerChars "Admit Card for admission test".toList)
      "admit card".toList = true ∧
    containsSub (lowerChars "Admit Card for admission test".toList)
      "admission".toList = true ∧
    detectType "Admit Card for admission test" = .admitCard :=
  ⟨by decide, by decide,
    (detectType_priority "Admit Card for admission test").1 ⟨by decide, by decide⟩⟩

/-- C5: when none of the physical-section header variants occurs
case-insensitively in the text, extractPhysicalEligibility returns the
empty sequence, with no whole-document fallback. -/
theorem extractPhysicalEligibility_requires_section (T : String)
    (h1 : containsSub (lowerChars T.toList) "physical eligibility".toList = false)
    (h2 : containsSub (lowerChars T.toList) "physical standard".toList = false)
    (h3 : containsSub (lowerChars T.toList) "physical test".toList = false) :
    extractPhysicalEligibility T = [] := by
  have e1 : lowerChars "Physical Eligibility".toList = "physical eligibility".toList := by
    decide
  have e2 : lowerChars "PHYSICAL ELIGIBILITY".toList = "physical eligibility".toList := by
    decide
  have e3 : lowerChars "Physical Standard".toList = "physical standard".toList := by
    decide
  have e4 : lowerChars "PHYSICAL STANDARD".toList = "physical standard".toList := by
    decide
  have e5 : lowerChars "Physical Test".toList = "physical test".toList := by decide
  have hsec : extractSection T
      ["Physical Eligibility", "PHYSICAL ELIGIBILITY", "Physical Standard",
       "PHYSICAL STANDARD", "Physical Test"] = "" := by
    unfold extractSection
    rw [sectionLoop, e1, subIndex_none_of_not_contains _ _ h1]
    rw [sectionLoop, e2, subIndex_none_of_not_contains _ _ h1]
    rw [sectionLoop, e3, subIndex_none_of_not_contains _ _ h2]
    rw [sectionLoop, e4, subIndex_none_of_not_contains _ _ h2]
    rw [sectionLoop, e5, subIndex_none_of_not_contains _ _ h3]
    rw [sectionLoop]
  unfold extractPhysicalEligibility
  rw [hsec]
  simp

/-- Witness for C5: a text with a matchable height phrase but no
physical-section header yields no physical-eligibility entries. -/
theorem extractPhysicalEligibility_requires_section_witness :
    containsSub (lowerChars "Height: 165 cm".toList)
      "physical eligibility".toList = false ∧
    containsSub (lowerChars "Height: 165 cm".toList)
      "physical standard".toList = false ∧
    containsSub (lowerChars "Height: 165 cm".toList)
      "physical test".toList = false ∧
    extractPhysicalEligibility "Height: 165 cm" = [] :=
  ⟨by decide, by decide, by decide,
    extractPhysicalEligibility_requires_section "Height: 165 cm"
      (by decide) (by decide) (by decide)⟩

/-- Every entry produced by folding feeStep is an original entry or
carries a fee normalized by feeOf from some raw capture. -/
theorem feeFold_mem (st : Chars) (ps : List (RE × String)) :
    ∀ (acc : List FeeEntry) (e : FeeEntry),
      e ∈ ps.foldl (feeStep st) acc → e ∈ acc ∨ ∃ raw : Chars, e.fee = feeOf raw := by
  induction ps with
  | nil => intro acc e h; exact Or.inl h
  | cons p rest ih =>
    intro acc e h
    rw [List.foldl_cons] at h
    rcases ih (feeStep st acc p) e h with h' | h'
    · unfold feeStep at h'
      rcases hm : reSearch p.1 st with _ | m
      · simp only [hm] at h'; exact Or.inl h'
      · simp only [hm] at h'
        rcases hc : cap m 1 with _ | g
        · simp only [hc] at h'; exact Or.inl h'
        · simp only [hc] at h'
          by_cases hg : g.isEmpty = true
          · rw [if_pos hg] at h'; exact Or.inl h'
          · rw [if_neg hg] at h'
            by_cases ha : (acc.any fun f => f.category = p.2) = true
            · rw [if_pos ha] at h'; exact Or.inl h'
            · rw [if_neg ha] at h'
              rcases List.mem_append.mp h' with h'' | h''
              · exact Or.inl h''
              · rw [List.mem_singleton] at h''
                subst h''
                exact Or.inr ⟨g, rfl⟩
    · exact Or.inr h'

/-- Folding feeStep never duplicates a category. -/
theorem feeFold_nodup (st : Chars) (ps : List (RE × String)) :
    ∀ acc : List FeeEntry,
      (acc.map FeeEntry.category).Nodup →
      ((ps.foldl (feeStep st) acc).map FeeEntry.category).Nodup := by
  induction ps with
  | nil => intro acc h; exact h
  | cons p rest ih =>
    intro acc h
    rw [List.foldl_cons]
    apply ih
    unfold feeStep
    rcases hm : reSearch p.1 st with _ | m
    · simp only [hm]; exact h
    · simp only [hm]
      rcases hc : cap m 1 with _ | g
      · simp only [hc]; exact h
      · simp only [hc]
        by_cases hg : g.isEmpty = true
        · rw [if_pos hg]; exact h
        · rw [if_neg hg]
          by_cases ha : (acc.any fun f => f.category = p.2) = true
          · rw [if_pos ha]; exact h
          · rw [if_neg ha]
            rw [List.map_append]
            rw [List.nodup_append]
            refine ⟨h, List.nodup_singleton _, ?_⟩
            intro a hha hpa
            simp only [List.map_cons, List.map_nil, List.mem_singleton] at hpa
            subst hpa
            rcases List.mem_map.mp hha with ⟨f, hf, hfc⟩
            exact ha (List.any_eq_true.mpr ⟨f, hf, decide_eq_true hfc⟩)

/-- C6: every fee entry is either one of the normalized "Nil" captures
(a capture reading nil or exempted case-insensitively) or a rupee figure
with thousands separators stripped and the rupee sign and trailing
dash appended; the fragment "General: Rs. 1,000" yields entries with the
1000-rupee fee, "SC/ST: Nil" yields the entry with category SC and ST
combined and fee "Nil", and no category string ever appears twice. -/
theorem extractFees_normalization :
    (∀ (T : String) (e : FeeEntry), e ∈ extractFees T →
      ∃ raw : Chars,
        ((lowerChars raw = "nil".toList ∨ lowerChars raw = "exempted".toList) ∧
          e.fee = "Nil") ∨
        e.fee = "₹" ++ (⟨stripCommas raw⟩ : String) ++ "/-") ∧
    extractFees "General: Rs. 1,000" =
      [⟨"General/EWS/OBC", "₹1000/-"⟩, ⟨"General", "₹1000/-"⟩] ∧
    extractFees "SC/ST: Nil" = [⟨"SC/ST", "Nil"⟩, ⟨"ST", "Nil"⟩] ∧
    (∀ T : String, ((extractFees T).map FeeEntry.category).Nodup) := by
  refine ⟨?_, by decide, by decide, ?_⟩
  · intro T e h
    unfold extractFees at h
    rcases feeFold_mem _ _ _ _ h with h' | ⟨raw, hraw⟩
    · simp at h'
    · refine ⟨raw, ?_⟩
      unfold feeOf at hraw
      split at hraw
      · rename_i hcond
        exact Or.inl ⟨by simpa using hcond, hraw⟩
      · exact Or.inr hraw
  · intro T
    unfold extractFees
    exact feeFold_nodup _ _ [] (by simp)

/-- Witness for C6 at the concrete inputs named by the claim. -/
theorem extractFees_normalization_witness :
    (⟨"SC/ST", "Nil"⟩ : FeeEntry) ∈ extractFees "SC/ST: Nil" ∧
    (∃ raw : Chars,
      ((lowerChars raw = "nil".toList ∨ lowerChars raw = "exempted".toList) ∧
        (⟨"SC/ST", "Nil"⟩ : FeeEntry).fee = "Nil") ∨
      (⟨"SC/ST", "Nil"⟩ : FeeEntry).fee = "₹" ++ (⟨stripCommas raw⟩ : String) ++ "/-") :=
  ⟨by decide, extractFees_normalization.1 "SC/ST: Nil" ⟨"SC/ST", "Nil"⟩ (by decide)⟩

/-- C10: the first two fee category patterns overlap and deduplication is
by exact category string, so "General: Rs. 100" produces both a
General/EWS/OBC entry and a General entry with the same fee. -/
theorem extractFees_overlapping_categories :
    extractFees "General: Rs. 100" =
      [⟨"General/EWS/OBC", "₹100/-"⟩, ⟨"General", "₹100/-"⟩] := by decide

theorem linkStep_none (l : Links) (u : String) (hb : bucketOf u = none) :
    linkStep l u = l := by
  unfold linkStep
  rw [hb]

theorem linkStep_same (b : Bucket) (l : Links) (u : String)
    (hb : bucketOf u = some b) :
    bucketGet b (linkStep l u) =
      if bucketGet b l = none then some u else bucketGet b l := by
  cases b <;>
    (unfold linkStep bucketGet
     simp only [hb]
     split_ifs <;> simp_all)

theorem linkStep_other (b b' : Bucket) (l : Links) (u : String)
    (hb : bucketOf u = some b') (hne : b' ≠ b) :
    bucketGet b (linkStep l u) = bucketGet b l := by
  cases b <;> cases b' <;>
    first
      | exact absurd rfl hne
      | (unfold linkStep bucketGet
         simp only [hb]
         split <;> rfl)

theorem linkFold_get (b : Bucket) (urls : List String) :
    ∀ l : Links,
      bucketGet b (urls.foldl linkStep l) =
        if bucketGet b l = none then
          urls.find? (fun u => bucketOf u == some b)
        else bucketGet b l := by
  induction urls with
  | nil =>
    intro l
    by_cases hl : bucketGet b l = none
    · rw [if_pos hl, List.foldl_nil, List.find?_nil, hl]
    · rw [if_neg hl, List.foldl_nil]
  | cons u rest ih =>
    intro l
    rw [List.foldl_cons, ih]
    rcases hb : bucketOf u with _ | b'
    · rw [linkStep_none l u hb]
      rw [show List.find? (fun u => bucketOf u == some b) (u :: rest) =
            List.find? (fun u => bucketOf u == some b) rest from
          List.find?_cons_of_neg _ (by rw [hb]; simp)]
    · by_cases hbb : b' = b
      · subst hbb
        rw [linkStep_same b' l u hb]
        rw [show List.find? (fun u => bucketOf u == some b') (u :: rest) = some u from
            List.find?_cons_of_pos _ (by rw [hb]; exact beq_self_eq_true _)]
        by_cases hl : bucketGet b' l = none
        · rw [if_pos hl]
          simp
        · simp only [if_neg hl]
      · rw [linkStep_other b b' l u hb hbb]
        rw [show List.find? (fun u => bucketOf u == some b) (u :: rest) =
              List.find? (fun u => bucketOf u == some b) rest from
            List.find?_cons_of_neg _ (by rw [hb]; simp [hbb])]

/-- C7: each URL goes to at most one bucket — the first keyword check
that succeeds in the fixed evaluation order — and each bucket keeps only
the first qualifying URL in document order; on a text containing an
apply-online URL and a notification PDF URL from nic.in, the first URL
fills applyOnlineUrl, the second fills notificationUrl, and
officialWebsiteUrl stays absent. -/
theorem extractLinks_bucket_priority :
    (∀ (T : String) (b : Bucket),
      bucketGet b (extractLinks T) =
        (findUrls T).find? (fun u => bucketOf u == some b)) ∧
    extractLinks
        "Apply Online: https://ssc.nic.in/apply-online\nNotification: https://ssc.nic.in/notification.pdf" =
      { applyOnlineUrl := some "https://ssc.nic.in/apply-online",
        notificationUrl := some "https://ssc.nic.in/notification.pdf" } := by
  refine ⟨?_, by decide⟩
  intro T b
  unfold extractLinks
  rw [linkFold_get]
  cases b <;> simp [bucketGet]

theorem urlAfterScheme_ne_nil (pre rest u r : Chars)
    (h : urlAfterScheme pre rest = some (u, r)) : u ≠ [] := by
  unfold urlAfterScheme at h
  dsimp only at h
  split at h
  · exact absurd h (by simp)
  · rename_i htk
    simp only [Option.some.injEq, Prod.mk.injEq] at h
    rw [← h.1]
    intro hc
    exact htk (List.append_eq_nil.mp hc).2

theorem urlAt_ne_nil (s u r : Chars) (h : urlAt s = some (u, r)) : u ≠ [] := by
  unfold urlAt at h
  rcases h1 : matchCI "https://".toList s with _ | pr
  · rw [h1] at h
    rcases h2 : matchCI "http://".toList s with _ | pr2
    · rw [h2] at h
      exact absurd h (by simp)
    · rw [h2] at h
      exact urlAfterScheme_ne_nil _ _ _ _ h
  · rw [h1] at h
    exact urlAfterScheme_ne_nil _ _ _ _ h

theorem findUrlsAux_mem_ne (fuel : Nat) :
    ∀ (s : Chars) (u : String), u ∈ findUrlsAux fuel s → u ≠ "" := by
  induction fuel with
  | zero => intro s u h; simp [findUrlsAux] at h
  | succ n ih =>
    intro s u h
    cases s with
    | nil => simp [findUrlsAux] at h
    | cons c t =>
      rw [findUrlsAux] at h
      rcases hu : urlAt (c :: t) with _ | ⟨w, rest⟩
      · simp only [hu] at h
        exact ih t u h
      · simp only [hu] at h
        rcases List.mem_cons.mp h with rfl | h'
        · intro hc
          exact urlAt_ne_nil _ _ _ hu (congrArg String.data hc)
        · exact ih rest u h'

theorem findUrls_mem_ne (T : String) (u : String) (h : u ∈ findUrls T) :
    u ≠ "" := findUrlsAux_mem_ne _ _ u h

theorem parse_qualification_eq (T : String) :
    (parseJobNotification T).qualification =
      if extractQualification T = "" then none else some (extractQualification T) := rfl

theorem parse_state_eq (T : String) :
    (parseJobNotification T).state =
      if extractState T = "" then none else some (extractState T) := rfl

theorem parse_links_eq (T : String) :
    (parseJobNotification T).applyOnlineUrl = bucketGet .apply (extractLinks T) ∧
    (parseJobNotification T).admitCardUrl = bucketGet .hallTicket (extractLinks T) ∧
    (parseJobNotification T).resultUrl = bucketGet .res (extractLinks T) ∧
    (parseJobNotification T).answerKeyUrl = bucketGet .ans (extractLinks T) ∧
    (parseJobNotification T).notificationUrl = bucketGet .notif (extractLinks T) ∧
    (parseJobNotification T).officialWebsiteUrl = bucketGet .official (extractLinks T) :=
  ⟨rfl, rfl, rfl, rfl, rfl, rfl⟩

theorem bucketGet_extractLinks_ne (T : String) (b : Bucket) (s : String)
    (h : bucketGet b (extractLinks T) = some s) : s ≠ "" := by
  have hfold : bucketGet b (extractLinks T) =
      if bucketGet b ({} : Links) = none then
        (findUrls T).find? (fun u => bucketOf u == some b)
      else bucketGet b ({} : Links) := by
    unfold extractLinks
    exact linkFold_get b (findUrls T) {}
  rw [hfold] at h
  have hnone : bucketGet b ({} : Links) = none := by cases b <;> rfl
  rw [if_pos hnone] at h
  exact findUrls_mem_ne T s (List.mem_of_find?_eq_some h)

/-- C2 (amended): every array field of the ParsedJob record is a list by
construction; the optional string fields qualification, state, and the six
URL fields are either absent or a non-empty string; eligibilityDetails is
always present and equals the qualification string verbatim, which may be
the empty string. -/
theorem parseJobNotification_optional_fields (T : String) :
    (∀ s, (parseJobNotification T).qualification = some s → s ≠ "") ∧
    (∀ s, (parseJobNotification T).state = some s → s ≠ "") ∧
    (∀ s, (parseJobNotification T).applyOnlineUrl = some s → s ≠ "") ∧
    (∀ s, (parseJobNotification T).admitCardUrl = some s → s ≠ "") ∧
    (∀ s, (parseJobNotification T).resultUrl = some s → s ≠ "") ∧
    (∀ s, (parseJobNotification T).answerKeyUrl = some s → s ≠ "") ∧
    (∀ s, (parseJobNotification T).notificationUrl = some s → s ≠ "") ∧
    (∀ s, (parseJobNotification T).officialWebsiteUrl = some s → s ≠ "") ∧
    (parseJobNotification T).eligibilityDetails = some (extractQualification T) := by
  obtain ⟨hl1, hl2, hl3, hl4, hl5, hl6⟩ := parse_links_eq T
  refine ⟨?_, ?_, ?_, ?_, ?_, ?_, ?_, ?_, rfl⟩
  · intro s hs
    rw [parse_qualification_eq] at hs
    by_cases hq : extractQualification T = ""
    · rw [if_pos hq] at hs
      exact absurd hs (by simp)
    · rw [if_neg hq] at hs
      rw [← Option.some.inj hs]
      exact hq
  · intro s hs
    rw [parse_state_eq] at hs
    by_cases hq : extractState T = ""
    · rw [if_pos hq] at hs
      exact absurd hs (by simp)
    · rw [if_neg hq] at hs
      rw [← Option.some.inj hs]
      exact hq
  · intro s hs
    rw [hl1] at hs
    exact bucketGet_extractLinks_ne T _ s hs
  · intro s hs
    rw [hl2] at hs
    exact bucketGet_extractLinks_ne T _ s hs
  · intro s hs
    rw [hl3] at hs
    exact bucketGet_extractLinks_ne T _ s hs
  · intro s hs
    rw [hl4] at hs
    exact bucketGet_extractLinks_ne T _ s hs
  · intro s hs
    rw [hl5] at hs
    exact bucketGet_extractLinks_ne T _ s hs
  · intro s hs
    rw [hl6] at hs
    exact bucketGet_extractLinks_ne T _ s hs

/-- Witness for C2: a present qualification field is non-empty. -/
theorem parseJobNotification_optional_fields_witness :
    (parseJobNotification "graduation required").qualification =
      some "graduation graduate bachelor" ∧
    "graduation graduate bachelor" ≠ "" :=
  ⟨by decide,
    (parseJobNotification_optional_fields "graduation required").1
      "graduation graduate bachelor" (by decide)⟩

/-- C2 counterexample: eligibilityDetails is assigned the qualification
string without an emptiness guard, so it can be a present empty string,
unlike every other optional string field. -/
theorem parseJobNotification_eligibility_empty_string :
    (parseJobNotification "hello world").eligibilityDetails = some "" := by decide

/-- C9: the extractor is a pure function of its input text: two
invocations on the same input return identical records. -/
theorem parseJobNotification_deterministic (T : String) :
    parseJobNotification T = parseJobNotification T := rfl

theorem foldl_add_totalPost (vs : List VacancyEntry) :
    ∀ a : Int,
      vs.foldl (fun sum v => sum + jsParseIntOr0 v.totalPost) a =
        a + (vs.map (fun v => jsParseIntOr0 v.totalPost)).sum := by
  induction vs with
  | nil => intro a; simp
  | cons v rest ih =>
    intro a
    rw [List.foldl_cons, ih]
    simp only [List.map_cons, List.sum_cons]
    ring

/-- C8: the aggregator's total-posts figure is the sum over all vacancy
entries of the numeric value of totalPost with non-numeric values treated
as 0; on the totalPost values 100, 50 and "abc" the total is 150; and
parseJobNotification builds its summary from exactly this figure. -/
theorem totalPosts_sum :
    (∀ vs : List VacancyEntry,
      totalPosts vs = (vs.map (fun v => jsParseIntOr0 v.totalPost)).sum) ∧
    totalPosts [⟨"Post A", "100", ""⟩, ⟨"Post B", "50", ""⟩, ⟨"Post C", "abc", ""⟩]
      = 150 ∧
    (∀ T : String,
      (parseJobNotification T).shortInfo =
        shortInfoOf (extractDepartment T) (extractTitle T)
          (totalPosts (extractVacancyDetails T)) (extractDates T)) := by
  refine ⟨?_, by decide, fun T => rfl⟩
  intro vs
  unfold totalPosts
  rw [foldl_add_totalPost]
  simp

end JobParser
